import Mathlib

/-!
Verification of the tdsr terminal screen reader core (src/tdsr/__init__.py)
via a shallow embedding in Lean 4.

Times (monotonic clock values, timeouts) are modelled as rationals.
Byte strings (key chunks, cell payloads, speech text) are modelled as
Lean strings or lists of characters.
-/

set_option autoImplicit false

namespace Tdsr

/-! ### Scheduler and main-loop gating (claims C1 and C2)

The scheduler state is the part of the global `State` object that the main
loop's child-output branch touches: `silence`, `tempsilence`,
`delaying_output`, the speech buffer and `delayed_functions`.
Scheduled callbacks are identified by a tag: `read_buffer_scheduled` is
the deferred flush of the main loop; `say_review` stands for the
cursor-review callbacks armed by the arrow-key handlers, which do not
modify any of the fields modelled here. -/

inductive DelayedFn where
  | read_buffer_scheduled
  | say_review
deriving DecidableEq, Repr

structure LoopSt where
  silence : Bool
  tempsilence : Bool
  delaying_output : Bool
  speech_buffer : String
  delayed_functions : List (ℚ × DelayedFn)
deriving DecidableEq, Repr

/-- `schedule(timeout, func, set_tempsilence)`: appends
`(time.monotonic() + timeout, func)` to `state.delayed_functions` and
optionally sets `tempsilence`. -/
def schedule (timeout : ℚ) (func : DelayedFn) (set_tempsilence : Bool)
    (now : ℚ) (st : LoopSt) : LoopSt :=
  let st := { st with delayed_functions := st.delayed_functions ++ [(now + timeout, func)] }
  if set_tempsilence then { st with tempsilence := true } else st

/-- Effect of one scheduled callback on the loop state.
`read_buffer_scheduled` resets `delaying_output` and calls `sb()`, which
empties the speech buffer; the review-speech callbacks only talk to the
synth. -/
def runDelayedFn : DelayedFn → LoopSt → LoopSt
  | .read_buffer_scheduled, st => { st with delaying_output := false, speech_buffer := "" }
  | .say_review, st => st

/-- `run_scheduled()`: runs every pending callback whose deadline has
passed (in list order, against a single clock reading) and removes the
fired entries. -/
def run_scheduled (now : ℚ) (st : LoopSt) : LoopSt :=
  if st.delayed_functions = [] then st
  else
    let st' := st.delayed_functions.foldl
      (fun s p => if now ≥ p.1 then runDelayedFn p.2 s else s) st
    { st' with delayed_functions := st.delayed_functions.filter (fun p => ¬ now ≥ p.1) }

/-- The gating code the main loop runs right after feeding a child-output
chunk to the emulator (src/tdsr/__init__.py lines 432-434):
if neither silence flag is set, the buffer is non-empty
(`speech_buffer.tell() > 0`) and `delaying_output` is false, a flush is
scheduled 5 ms from now.  Nothing in the source ever sets
`delaying_output` to `True`. -/
def after_feed (now : ℚ) (st : LoopSt) : LoopSt :=
  if ¬ st.silence ∧ ¬ st.tempsilence then
    if st.speech_buffer ≠ "" ∧ ¬ st.delaying_output then
      schedule (5 / 1000) .read_buffer_scheduled false now st
    else st
  else st

/-- `time_until_next_delayed()`: `None` when no callback is pending,
otherwise `max(0, state.delayed_functions[0][0] - time.monotonic())` —
note the `[0]`: the head of the list, not a minimum. -/
def time_until_next_delayed (now : ℚ) (st : LoopSt) : Option ℚ :=
  match st.delayed_functions with
  | [] => none
  | (t, _) :: _ => some (max 0 (t - now))

/-- The earliest deadline among pending scheduled calls, as the spec
words it ("earliest_deadline"): the minimum over the whole list. -/
def earliestDeadline (t : ℚ) (l : List (ℚ × DelayedFn)) : ℚ :=
  l.foldl (fun a p => min a p.1) t

/-! ### Key dispatcher (claim C5) -/

/-- `REPEAT_KEY_TIMEOUT = 0.5` seconds. -/
def REPEAT_KEY_TIMEOUT : ℚ := 1 / 2

structure KeyHandlerSt where
  last_key : Option String
  last_key_time : ℚ
deriving DecidableEq, Repr

/-- Which binding `KeyHandler.process` invokes for a chunk. -/
inductive Invoked where
  | unknown
  | single (key : String)
  | double (key : String)
deriving DecidableEq, Repr

/-- `KeyHandler.process(data)` (src/tdsr/__init__.py lines 98-115),
keeping only which binding is invoked and the handler's repeat-detection
state.  `km` is membership in `self.keymap`. -/
def KeyHandler.process (km : String → Bool) (now : ℚ)
    (st : KeyHandlerSt) (data : String) : KeyHandlerSt × Invoked :=
  let key_delta := now - st.last_key_time
  let st := { st with last_key_time := now }
  let repeat_key := data ++ data
  if ¬ km data then
    ({ st with last_key := some data }, .unknown)
  else if st.last_key = some data ∧ km repeat_key ∧ key_delta ≤ REPEAT_KEY_TIMEOUT then
    ({ st with last_key := some data }, .double repeat_key)
  else
    ({ st with last_key := some data }, .single data)

/-! ### Screen grid and review cursor (claims C3 and C4)

A cell payload is the `data` string of a pyte cell: one base character
(plus possible combining marks), or `""` for the empty right half of a
wide character.  pyte's buffer is a `defaultdict` of rows which are
themselves default dictionaries, so any index outside the populated
region — including negative indices — reads the default blank cell
`" "`. -/

abbrev CellRow := List String
abbrev ScreenBuffer := List CellRow

structure Screen where
  lines : Nat
  columns : Nat
  buffer : ScreenBuffer
deriving DecidableEq, Repr

structure Rev where
  revx : Int
  revy : Int
deriving DecidableEq, Repr

/-- `screen.buffer[y][x].data`, with pyte's default blank `" "` for any
coordinate outside the populated grid (also negative ones). -/
def cellAt (buf : ScreenBuffer) (y x : Int) : String :=
  if y < 0 ∨ x < 0 then " "
  else (buf.getD y.toNat []).getD x.toNat " "

/-- `get_char()`: the cell under the review cursor. -/
def get_char (scr : Screen) (st : Rev) : String :=
  cellAt scr.buffer st.revy st.revx

/-- `skip_to_previous_char()`: walk `revx` leftward while the cell under
it is the empty right half of a wide character. -/
def skip_to_previous_char (buf : ScreenBuffer) (y : Int) (x : Int) : Int :=
  if h : cellAt buf y x = "" then skip_to_previous_char buf y (x - 1) else x
termination_by (x + 1).toNat
decreasing_by
  have hx : ¬ x < 0 := by
    intro hlt
    simp [cellAt, Or.inr hlt] at h
  omega

/-- `prevline()`: decrement `revy`, clamp at the top, speak the line. -/
def prevline (scr : Screen) (st : Rev) : Rev :=
  let y := st.revy - 1
  if y < 0 then { st with revy := 0 } else { st with revy := y }

/-- `nextline()`: increment `revy`, clamp at the bottom, speak the line. -/
def nextline (scr : Screen) (st : Rev) : Rev :=
  let y := st.revy + 1
  if y > (scr.lines : Int) - 1 then { st with revy := (scr.lines : Int) - 1 }
  else { st with revy := y }

/-- `prevchar()`: decrement `revx`, clamp at the left edge, then skip
left past empty cells, speak the character. -/
def prevchar (scr : Screen) (st : Rev) : Rev :=
  let x := st.revx - 1
  let x := if x < 0 then 0 else x
  { st with revx := skip_to_previous_char scr.buffer st.revy x }

/-- `nextchar()`: advance `revx` by the terminal width of the current
cell; on clamping at the right edge, skip left past empty cells.  The
`wcwidth` function is a parameter of the model. -/
def nextchar (wcw : String → Int) (scr : Screen) (st : Rev) : Rev :=
  let x := st.revx + wcw (get_char scr st)
  if x > (scr.columns : Int) - 1 then
    { st with revx := skip_to_previous_char scr.buffer st.revy ((scr.columns : Int) - 1) }
  else { st with revx := x }

/-- `topOfScreen()`. -/
def topOfScreen (scr : Screen) (st : Rev) : Rev :=
  { st with revy := 0 }

/-- `bottomOfScreen()`. -/
def bottomOfScreen (scr : Screen) (st : Rev) : Rev :=
  { st with revy := (scr.lines : Int) - 1 }

/-- `startOfLine()`. -/
def startOfLine (scr : Screen) (st : Rev) : Rev :=
  { st with revx := 0 }

/-- `endOfLine()`. -/
def endOfLine (scr : Screen) (st : Rev) : Rev :=
  { st with revx := (scr.columns : Int) - 1 }

/-- `move_prevchar()`. -/
def move_prevchar (scr : Screen) (st : Rev) : Rev :=
  if st.revx = 0 then
    if st.revy = 0 then st
    else { revx := (scr.columns : Int) - 1, revy := st.revy - 1 }
  else { st with revx := st.revx - 1 }

/-- `move_nextchar()`. -/
def move_nextchar (scr : Screen) (st : Rev) : Rev :=
  if st.revx = (scr.columns : Int) - 1 then
    if st.revy = (scr.lines : Int) - 1 then st
    else { revx := 0, revy := st.revy + 1 }
  else { st with revx := st.revx + 1 }

/-- The first while loop of `sayword`: move to the beginning of the word
under the review cursor (`while revx > 0 and cur != ' ' and left != ' ':
move_prevchar()`). -/
def saywordLoop1 (scr : Screen) (st : Rev) : Rev :=
  if h : st.revx > 0 ∧ get_char scr st ≠ " " ∧
      cellAt scr.buffer st.revy (st.revx - 1) ≠ " " then
    saywordLoop1 scr (move_prevchar scr st)
  else st
termination_by st.revx.toNat
decreasing_by
  have hx : st.revx ≠ 0 := by omega
  simp only [move_prevchar, if_neg hx]
  omega

/-- The second while loop of `sayword`: accumulate the word rightward
until a space or the right edge. -/
def saywordLoop2 (scr : Screen) (st : Rev) (word : String) : Rev × String :=
  if h : st.revx < (scr.columns : Int) - 1 then
    let st' := move_nextchar scr st
    if get_char scr st' = " " then (st', word)
    else saywordLoop2 scr st' (word ++ get_char scr st')
  else (st, word)
termination_by ((scr.columns : Int) - 1 - st.revx).toNat
decreasing_by
  have hx : st.revx ≠ (scr.columns : Int) - 1 := by omega
  simp only [move_nextchar, if_neg hx]
  omega

/-- `' '.join(word)`, used by the spell variant of `sayword`. -/
def spellOut (w : String) : String :=
  String.intercalate " " (w.toList.map Char.toString)

/-- `sayword(spell=False)` (src/tdsr/__init__.py lines 820-839): save the
review position, walk to the start of the word, read it out (or announce
"space" at the left edge and return early), then restore the saved
position.  Returns the final review position and the text handed to
`say`. -/
def sayword (scr : Screen) (st : Rev) (spell : Bool) : Rev × String :=
  let saved := st
  let st1 := saywordLoop1 scr st
  if st1.revx = 0 ∧ get_char scr st1 = " " then (st1, "space")
  else
    let w0 := get_char scr st1
    let r := saywordLoop2 scr st1 w0
    ({ r.1 with revx := saved.revx, revy := saved.revy },
      if spell then spellOut r.2 else r.2)

/-! ### Repeated-symbol summarization (claim C7)

`replace_duplicate_characters_with_count` (src/tdsr/__init__.py lines
529-540) compiles the regex `([-=!#])\1*` over the configured symbol set
(we model the default `-=!#`), iterates over its matches — the maximal
runs of a single configured character — and, for each match of length
greater than one, replaces the first occurrence of the matched substring
in the evolving line with `"L <char>"`. -/

/-- Membership in the default `repeated_symbols_values` set `-=!#`. -/
def isRepSym (c : Char) : Bool :=
  c = '-' || c = '=' || c = '!' || c = '#'

/-- Split off the leading run of copies of `c`: returns how many leading
characters equal `c` and the remainder of the list. -/
def takeRun (c : Char) : List Char → Nat × List Char
  | [] => (0, [])
  | d :: rest =>
    if d = c then ((takeRun c rest).1 + 1, (takeRun c rest).2)
    else (0, d :: rest)

theorem takeRun_length (c : Char) : ∀ l : List Char, (takeRun c l).2.length ≤ l.length := by
  intro l
  induction l with
  | nil => simp [takeRun]
  | cons d rest ih =>
    by_cases hd : d = c
    · simp only [takeRun, if_pos hd]
      exact Nat.le_succ_of_le ih
    · simp [takeRun, hd]

/-- The matches of `([-=!#])\1*` over the line, left to right: each is
the character of a maximal run together with the run's length. -/
def runsOf : List Char → List (Char × Nat)
  | [] => []
  | c :: rest =>
    if isRepSym c then
      (c, (takeRun c rest).1 + 1) :: runsOf (takeRun c rest).2
    else runsOf rest
termination_by l => l.length
decreasing_by
  · exact Nat.lt_succ_of_le (takeRun_length _ _)
  · exact Nat.lt_succ_self _

/-- Decimal digit characters of a natural number, as Python's
`f-string` formatting of `len(match)` produces them. -/
def natDigits (n : Nat) : List Char :=
  if n < 10 then [Char.ofNat (48 + n)]
  else natDigits (n / 10) ++ [Char.ofNat (48 + n % 10)]
termination_by n
decreasing_by
  have : 10 ≤ n := by omega
  exact Nat.div_lt_self (by omega) (by omega)

/-- The replacement text `f"{L} {char}"`. -/
def runReplacement (c : Char) (n : Nat) : List Char :=
  natDigits n ++ [' ', c]

/-- Boolean prefix test on character lists. -/
def isPre : List Char → List Char → Bool
  | [], _ => true
  | _ :: _, [] => false
  | a :: pat, b :: l => a = b && isPre pat l

/-- Python's `str.replace(old, new, 1)`: replace the first occurrence of
`pat` (searching left to right), leave the string unchanged when `pat`
does not occur. -/
def replaceFirst (pat rep : List Char) : List Char → List Char
  | [] => []
  | a :: rest =>
    if isPre pat (a :: rest) then rep ++ (a :: rest).drop pat.length
    else a :: replaceFirst pat rep rest

/-- The loop body of `replace_duplicate_characters_with_count`: for each
regex match, in match order, replace the first occurrence of the matched
run text when its length exceeds one. -/
def processRuns : List Char → List (Char × Nat) → List Char
  | s, [] => s
  | s, (c, n) :: rs =>
    processRuns
      (if n > 1 then replaceFirst (List.replicate n c) (runReplacement c n) s else s) rs

/-- `replace_duplicate_characters_with_count(line)` with the
`repeated_symbols` config flag made explicit and the default symbol set
`-=!#`. -/
def replace_duplicate_characters_with_count (repeated_symbols : Bool)
    (line : List Char) : List Char :=
  if repeated_symbols then processRuns line (runsOf line) else line

/-- The transformation the spec describes, written from its words: every
maximal run of length `L > 1` of a configured character becomes
`"L <char>"`, and every character outside such runs is kept unchanged in
place. -/
def specSummarize : List Char → List Char
  | [] => []
  | c :: rest =>
    if isRepSym c then
      let n := (takeRun c rest).1 + 1
      (if n > 1 then runReplacement c n else [c]) ++ specSummarize (takeRun c rest).2
    else c :: specSummarize rest
termination_by l => l.length
decreasing_by
  · exact Nat.lt_succ_of_le (takeRun_length _ _)
  · exact Nat.lt_succ_self _

/-- No two adjacent equal characters from the symbol set: the shape
invariant of already-summarized text that makes the first occurrence of
each remaining run's text be the run itself. -/
def noTwo : List Char → Prop
  | a :: b :: l => ¬ (a = b ∧ isRepSym a = true) ∧ noTwo (b :: l)
  | _ => True

/-! ### Alternate screen: `MyScreen.set_mode` / `MyScreen.reset_mode`
(claim C6)

The fields of `MyScreen` the two methods touch: the cell buffer, the
cursor, the two save slots, and the set of active modes kept by the
stock pyte `Screen` (private modes are stored shifted left by five
bits; mode `1049 << 5` triggers none of pyte's special mode handling,
so the superclass calls only update the mode set).  Deep copies are
value copies here. -/

structure Cursor where
  x : Int
  y : Int
deriving DecidableEq, Repr

structure MyScreenSt where
  buffer : ScreenBuffer
  cursor : Cursor
  saved_cursor : Option Cursor
  saved_buffer : Option ScreenBuffer
  mode : List Nat
deriving DecidableEq, Repr

/-- `cursor_position()` with default margins: home the cursor. -/
def cursor_position (st : MyScreenSt) : MyScreenSt :=
  { st with cursor := ⟨0, 0⟩ }

/-- `MyScreen.set_mode(*modes)` for a private-mode call: drop mode 3,
save buffer and cursor on mode 1049 (then home the cursor and clear the
buffer), and let the superclass record the shifted modes. -/
def MyScreen.set_mode (modes : List Nat) (st : MyScreenSt) : MyScreenSt :=
  let modes := modes.erase 3
  let st :=
    if 1049 ∈ modes then
      let st := { st with saved_cursor := some st.cursor, saved_buffer := some st.buffer }
      let st := cursor_position st
      { st with buffer := [] }
    else st
  { st with mode := st.mode ++ modes.map (fun m => m * 32) }

/-- `MyScreen.reset_mode(*modes)` for a private-mode call: drop mode 3,
restore buffer and cursor from the save slots on mode 1049 when a save
exists (clearing the slots), and let the superclass discard the shifted
modes. -/
def MyScreen.reset_mode (modes : List Nat) (st : MyScreenSt) : MyScreenSt :=
  let modes := modes.erase 3
  let st :=
    if 1049 ∈ modes ∧ st.saved_cursor ≠ none then
      { st with
        cursor := st.saved_cursor.getD st.cursor,
        buffer := st.saved_buffer.getD st.buffer,
        saved_cursor := none,
        saved_buffer := none }
    else st
  { st with mode := st.mode.filter (fun m => ¬ m ∈ modes.map (fun k => k * 32)) }

/-- An arbitrary drawing/erasing/scrolling operation between the save
and the restore: it may rewrite the live buffer and move the cursor, but
— like every emulator operation other than `set_mode`/`reset_mode` —
it does not touch the save slots. -/
def applyMid (fs : List (ScreenBuffer → Cursor → ScreenBuffer × Cursor))
    (st : MyScreenSt) : MyScreenSt :=
  fs.foldl
    (fun s f =>
      let bc := f s.buffer s.cursor
      { s with buffer := bc.1, cursor := bc.2 })
    st

/-! ### Synth driver (claim C8)

`Synth.send` / `Synth.start` (src/tdsr/__init__.py lines 289-309).  The
outside world is a predicate `w` telling whether the i-th pipe write in
program order succeeds (`false` = `BrokenPipeError`).  `Popen` itself is
assumed to succeed.  `start` re-sends any remembered rate/volume/voice
settings through `send`, so the two functions are mutually recursive;
the recursion is bounded by explicit fuel, `none` meaning the fuel ran
out (which cannot happen for the fuel the theorems use). -/

structure SynthSt where
  pipeGen : Nat
  writeIdx : Nat
  delivered : List String
  rate : Option Int
  volume : Option Int
  voice_idx : Option Int
deriving DecidableEq, Repr

/-- One `self.pipe.stdin.write(text); flush()` attempt: consumes one
write slot of the world; on success the text is delivered. -/
def tryWrite (w : Nat → Bool) (st : SynthSt) (text : String) : SynthSt × Bool :=
  if w st.writeIdx then
    ({ st with writeIdx := st.writeIdx + 1, delivered := st.delivered ++ [text] }, true)
  else ({ st with writeIdx := st.writeIdx + 1 }, false)

mutual

/-- `Synth.send(text)`: try the write; on `BrokenPipeError` respawn via
`start()` and retry once; a second `BrokenPipeError` is swallowed. -/
def Synth.send (w : Nat → Bool) (st : SynthSt) (text : String) :
    Nat → Option SynthSt
  | 0 => none
  | fuel + 1 =>
    let r := tryWrite w st text
    if r.2 then some r.1
    else
      match Synth.start w r.1 fuel with
      | none => none
      | some st2 => some (tryWrite w st2 text).1

/-- `Synth.start()`: respawn the speech-server subprocess and replay any
remembered rate, volume and voice-index settings through `send`. -/
def Synth.start (w : Nat → Bool) (st : SynthSt) : Nat → Option SynthSt
  | 0 => none
  | fuel + 1 =>
    let st1 := { st with pipeGen := st.pipeGen + 1 }
    match (match st1.rate with
           | none => some st1
           | some v => Synth.send w st1 ("r" ++ toString v ++ "\n") fuel) with
    | none => none
    | some st2 =>
      match (match st2.volume with
             | none => some st2
             | some v => Synth.send w st2 ("v" ++ toString v ++ "\n") fuel) with
      | none => none
      | some st3 =>
        match st3.voice_idx with
        | none => some st3
        | some v => Synth.send w st3 ("V" ++ toString v ++ "\n") fuel

end

/-! ### Draw hook and speech-buffer flush (claims C9 and C10) -/

/-- The state `MyScreen.draw2` reads and writes besides the cell grid:
the `lastkey` echo-suppression global, the speech buffer, the spoken
synth messages, the gating flags, the `key_echo` setting and the
last-drawn / cursor coordinates. -/
structure DrawSt where
  lastkey : String
  speech_buffer : String
  spoken : List String
  silence : Bool
  tempsilence : Bool
  key_echo : Bool
  last_drawn_x : Int
  last_drawn_y : Int
  cursor_x : Int
  cursor_y : Int
deriving DecidableEq, Repr

/-- Whether `draw2` suppresses buffering of this grapheme as a key echo
(`add_to_buffer = False` in the source). -/
def draw2Suppressed (st : DrawSt) (text : String) : Bool :=
  text = st.lastkey

/-- `MyScreen.draw2(text)` (src/tdsr/__init__.py lines 617-632).
`superDraw` abstracts the stock pyte `Screen.draw`, which writes the
grapheme into the cell grid and moves the cursor; it cannot touch any
other field modelled here. -/
def draw2 (superDraw : String → Int × Int → Int × Int)
    (st : DrawSt) (text : String) : DrawSt :=
  let add_to_buffer := ¬ draw2Suppressed st text
  let st :=
    if text = st.lastkey ∧ text.length = 1 ∧ st.key_echo then
      { st with spoken := st.spoken ++ [text] }
    else st
  let st := { st with lastkey := "" }
  let st :=
    if st.cursor_y = st.last_drawn_y ∧ st.cursor_x - st.last_drawn_x > 1 then
      { st with speech_buffer := st.speech_buffer ++ " " }
    else st
  let xy := superDraw text (st.cursor_x, st.cursor_y)
  let st := { st with cursor_x := xy.1, cursor_y := xy.2 }
  if add_to_buffer ∧ ¬ st.silence ∧ ¬ st.tempsilence then
    { st with
      speech_buffer := st.speech_buffer ++ text,
      last_drawn_x := st.cursor_x,
      last_drawn_y := st.cursor_y }
  else st

/-- A burst of graphemes fed through `draw2` one after another (this is
what `MyScreen.draw` does with a decoded chunk), together with the
suppression decision taken at each step. -/
def drawBurst (superDraw : String → Int × Int → Int × Int) :
    DrawSt → List String → DrawSt × List Bool
  | st, [] => (st, [])
  | st, t :: ts =>
    let supp := draw2Suppressed st t
    let r := drawBurst superDraw (draw2 superDraw st t) ts
    (r.1, supp :: r.2)

/-- `sb()` (src/tdsr/__init__.py lines 706-714): read the whole speech
buffer, clear it, and — unless `tempsilence` is set — pass the
summarized text to `say`.  Returns the new state and the text spoken,
if any (the symbol substitution and stripping inside `say` are not
modelled; they do not affect whether something is sent). -/
def sb (repeated_symbols : Bool) (st : DrawSt) : DrawSt × Option String :=
  let data := st.speech_buffer
  let st := { st with speech_buffer := "" }
  if data = "" then (st, none)
  else if ¬ st.tempsilence then
    (st, some (String.mk (replace_duplicate_characters_with_count
      repeated_symbols data.toList)))
  else (st, none)

/-! ## Helper lemmas -/

theorem applyMid_saved (fs : List (ScreenBuffer → Cursor → ScreenBuffer × Cursor)) :
    ∀ st : MyScreenSt, (applyMid fs st).saved_cursor = st.saved_cursor ∧
      (applyMid fs st).saved_buffer = st.saved_buffer := by
  induction fs with
  | nil => intro st; exact ⟨rfl, rfl⟩
  | cons f fs ih =>
    intro st
    simpa [applyMid] using ih _

theorem foldl_min_eq (l : List (ℚ × DelayedFn)) :
    ∀ t : ℚ, (∀ p ∈ l, t ≤ p.1) → earliestDeadline t l = t := by
  induction l with
  | nil => intro t _; rfl
  | cons p l ih =>
    intro t h
    have h1 : min t p.1 = t := min_eq_left (h p (by simp))
    have h2 : ∀ q ∈ l, t ≤ q.1 := fun q hq => h q (by simp [hq])
    simpa [earliestDeadline, h1] using ih t h2

theorem skip_to_previous_char_nonempty (buf : ScreenBuffer) (y x : Int) :
    cellAt buf y (skip_to_previous_char buf y x) ≠ "" := by
  unfold skip_to_previous_char
  split
  · exact skip_to_previous_char_nonempty buf y (x - 1)
  · assumption
termination_by (x + 1).toNat
decreasing_by
  rename_i h
  have hx : ¬ x < 0 := by
    intro hlt
    simp [cellAt, Or.inr hlt] at h
  omega

theorem saywordLoop1_revy (scr : Screen) (st : Rev) :
    (saywordLoop1 scr st).revy = st.revy := by
  unfold saywordLoop1
  split
  · rename_i h
    have hx : st.revx ≠ 0 := by omega
    have hmove : (move_prevchar scr st).revy = st.revy := by
      simp [move_prevchar, if_neg hx]
    rw [saywordLoop1_revy scr (move_prevchar scr st), hmove]
  · rfl
termination_by st.revx.toNat
decreasing_by
  rename_i h
  have hx : st.revx ≠ 0 := by omega
  simp only [move_prevchar, if_neg hx]
  omega

theorem saywordLoop1_fix (scr : Screen) (st : Rev)
    (h0 : (saywordLoop1 scr st).revx = 0)
    (hsp : cellAt scr.buffer st.revy 0 = " ") :
    saywordLoop1 scr st = st := by
  by_cases hg : st.revx > 0 ∧ get_char scr st ≠ " " ∧
      cellAt scr.buffer st.revy (st.revx - 1) ≠ " "
  · have hx : ¬ st.revx = 0 := by omega
    have hmove : move_prevchar scr st = { st with revx := st.revx - 1 } := by
      simp [move_prevchar, hx]
    have hstep : saywordLoop1 scr st = saywordLoop1 scr { st with revx := st.revx - 1 } := by
      rw [saywordLoop1, dif_pos hg, hmove]
    rw [hstep] at h0 ⊢
    have hfix := saywordLoop1_fix scr { st with revx := st.revx - 1 } h0 hsp
    rw [hfix] at h0
    have hx1 : st.revx = 1 := by
      have : st.revx - 1 = 0 := h0
      omega
    exact absurd hsp (by simpa [hx1] using hg.2.2)
  · rw [saywordLoop1, dif_neg hg]
termination_by st.revx.toNat
decreasing_by
  show (st.revx - 1).toNat < st.revx.toNat
  have := hg.1
  omega

/-- The repeat-detection state after any `KeyHandler.process` call:
`last_key` is the chunk just seen and `last_key_time` the clock reading
taken at entry. -/
theorem KeyHandler.process_fst (km : String → Bool) (now : ℚ)
    (st : KeyHandlerSt) (data : String) :
    (KeyHandler.process km now st data).1 = ⟨some data, now⟩ := by
  simp only [KeyHandler.process]
  split
  · rfl
  · split <;> rfl

theorem draw2_lastkey (superDraw : String → Int × Int → Int × Int)
    (st : DrawSt) (text : String) :
    (draw2 superDraw st text).lastkey = "" := by
  simp only [draw2]
  split <;> split <;> split <;> rfl

theorem drawBurst_no_suppression (superDraw : String → Int × Int → Int × Int) :
    ∀ (burst : List String) (st : DrawSt), st.lastkey = "" →
      (∀ t ∈ burst, t ≠ "") →
      (drawBurst superDraw st burst).2 = List.replicate burst.length false := by
  intro burst
  induction burst with
  | nil => intro st _ _; rfl
  | cons t ts ih =>
    intro st hlk hne
    have hsupp : draw2Suppressed st t = false := by
      simp [draw2Suppressed, hlk]
      exact hne t (by simp)
    have hrest := ih (draw2 superDraw st t) (draw2_lastkey superDraw st t)
      (fun u hu => hne u (by simp [hu]))
    simp [drawBurst, hsupp, hrest, List.replicate_succ]

theorem takeRun_decomp (c : Char) : ∀ l : List Char,
    l = List.replicate (takeRun c l).1 c ++ (takeRun c l).2 := by
  intro l
  induction l with
  | nil => rfl
  | cons d rest ih =>
    by_cases hd : d = c
    · simp only [takeRun, if_pos hd, List.replicate_succ, List.cons_append]
      rw [← ih, hd]
    · simp [takeRun, hd]

theorem takeRun_head (c : Char) : ∀ (l : List Char) (d : Char),
    (takeRun c l).2.head? = some d → d ≠ c := by
  intro l
  induction l with
  | nil =>
    intro d hd
    simp [takeRun] at hd
  | cons e rest ih =>
    intro d hd
    by_cases he : e = c
    · exact ih d (by simpa [takeRun, he] using hd)
    · simp only [takeRun, if_neg he, List.head?_cons, Option.some.injEq] at hd
      rw [← hd]
      exact he

theorem natDigits_nonsym (n : Nat) : ∀ c ∈ natDigits n, isRepSym c = false := by
  intro c hc
  rw [natDigits] at hc
  split at hc
  · simp only [List.mem_singleton] at hc
    subst hc
    rename_i h
    interval_cases n <;> decide
  · rw [List.mem_append] at hc
    rcases hc with hc | hc
    · exact natDigits_nonsym (n / 10) c hc
    · simp only [List.mem_singleton] at hc
      subst hc
      have h10 : n % 10 < 10 := Nat.mod_lt _ (by norm_num)
      revert h10
      generalize n % 10 = k
      intro h10
      interval_cases k <;> decide
termination_by n
decreasing_by omega

theorem natDigits_ne_nil (n : Nat) : natDigits n ≠ [] := by
  rw [natDigits]
  split
  · simp
  · simp

theorem head?_nonsym_of_all (l : List Char) (hall : ∀ a ∈ l, isRepSym a = false)
    (d : Char) (hd : l.head? = some d) : isRepSym d = false := by
  cases l with
  | nil => simp at hd
  | cons a l =>
    simp only [List.head?_cons, Option.some.injEq] at hd
    rw [← hd]
    exact hall a (by simp)

theorem noTwo_tail (a : Char) (l : List Char) (h : noTwo (a :: l)) : noTwo l := by
  cases l with
  | nil => trivial
  | cons b l2 => exact h.2

theorem noTwo_of_all_nonsym : ∀ l : List Char, (∀ a ∈ l, isRepSym a = false) → noTwo l := by
  intro l
  induction l with
  | nil => intro _; trivial
  | cons a l ih =>
    intro h
    cases l with
    | nil => trivial
    | cons b l2 =>
      refine ⟨?_, ih ?_⟩
      · rintro ⟨-, hs⟩
        rw [h a (by simp)] at hs
        exact Bool.false_ne_true hs
      · intro x hx
        exact h x (by simp [hx])

theorem noTwo_append : ∀ (s u : List Char), noTwo s → noTwo u →
    (∀ a, s.getLast? = some a → u.head? = some a → isRepSym a = true → False) →
    noTwo (s ++ u) := by
  intro s
  induction s with
  | nil =>
    intro u _ h2 _
    simpa using h2
  | cons a s ih =>
    intro u h1 h2 h3
    cases s with
    | nil =>
      cases u with
      | nil => trivial
      | cons b u2 =>
        refine ⟨?_, h2⟩
        rintro ⟨hab, hs⟩
        exact h3 a (by simp) (by simp [hab]) hs
    | cons b s2 =>
      refine ⟨h1.1, ih u h1.2 h2 ?_⟩
      intro x hl hh hs
      exact h3 x (by rw [List.getLast?_cons_cons]; exact hl) hh hs

theorem runReplacement_head_nonsym (c : Char) (n : Nat) (d : Char)
    (hd : (runReplacement c n).head? = some d) : isRepSym d = false := by
  unfold runReplacement at hd
  cases hnd : natDigits n with
  | nil => exact absurd hnd (natDigits_ne_nil n)
  | cons a l =>
    rw [hnd, List.cons_append, List.head?_cons, Option.some.injEq] at hd
    rw [← hd]
    exact natDigits_nonsym n a (by rw [hnd]; simp)

theorem runReplacement_getLast (c : Char) (n : Nat) :
    (runReplacement c n).getLast? = some c := by
  unfold runReplacement
  rw [show natDigits n ++ [' ', c] = (natDigits n ++ [' ']) ++ [c] from by simp]
  exact List.getLast?_concat _

theorem runReplacement_ne_nil (c : Char) (n : Nat) : runReplacement c n ≠ [] := by
  unfold runReplacement
  simp

theorem noTwo_runReplacement (c : Char) (n : Nat) : noTwo (runReplacement c n) := by
  apply noTwo_append (natDigits n) [' ', c]
    (noTwo_of_all_nonsym _ (natDigits_nonsym n))
  · refine ⟨?_, trivial⟩
    rintro ⟨-, hs⟩
    exact absurd hs (by decide)
  · intro a hl hh hs
    simp only [List.head?_cons, Option.some.injEq] at hh
    rw [← hh] at hs
    exact absurd hs (by decide)

theorem isPre_append_self : ∀ pat r : List Char, isPre pat (pat ++ r) = true := by
  intro pat r
  induction pat with
  | nil => rfl
  | cons a pat ih => simp [isPre, ih]

theorem replaceFirst_self (pat rep r : List Char) (hne : pat ≠ []) :
    replaceFirst pat rep (pat ++ r) = rep ++ r := by
  cases pat with
  | nil => exact absurd rfl hne
  | cons a l =>
    rw [List.cons_append]
    simp only [replaceFirst]
    rw [← List.cons_append, if_pos (isPre_append_self _ _), List.drop_left]

theorem replaceFirst_run (c : Char) (n : Nat) (hc : isRepSym c = true) (hn : 2 ≤ n) :
    ∀ s r rep : List Char, noTwo s → s.getLast? ≠ some c →
      replaceFirst (List.replicate n c) rep (s ++ List.replicate n c ++ r) =
        s ++ rep ++ r := by
  intro s
  induction s with
  | nil =>
    intro r rep _ _
    simp only [List.nil_append]
    rw [replaceFirst_self _ _ _ (by simp only [ne_eq, List.replicate_eq_nil_iff]; omega)]
  | cons a s ih =>
    intro r rep h1 h2
    rw [List.cons_append, List.cons_append]
    simp only [replaceFirst]
    rw [if_neg ?hno]
    case hno =>
      intro hpre
      obtain ⟨m, rfl⟩ : ∃ m, n = m + 2 := ⟨n - 2, by omega⟩
      cases s with
      | nil =>
        have ha : a ≠ c := by
          intro he
          exact h2 (by simp [he])
        simp only [List.nil_append, List.replicate_succ, isPre, Bool.and_eq_true,
          decide_eq_true_eq] at hpre
        exact ha hpre.1.symm
      | cons b s2 =>
        simp only [List.cons_append, List.replicate_succ, isPre, Bool.and_eq_true,
          decide_eq_true_eq] at hpre
        refine h1.1 ⟨?_, ?_⟩
        · rw [← hpre.1, ← hpre.2.1]
        · rw [← hpre.1]
          exact hc
    · rw [ih r rep (noTwo_tail a s h1) ?_]
      · rw [List.cons_append, List.cons_append]
      · cases s with
        | nil => simp
        | cons b s2 =>
          rw [List.getLast?_cons_cons] at h2
          exact h2

theorem processRuns_spec (t : List Char) : ∀ s : List Char, noTwo s →
    (∀ c, t.head? = some c → isRepSym c = true → s.getLast? ≠ some c) →
    processRuns (s ++ t) (runsOf t) = s ++ specSummarize t := by
  match t with
  | [] =>
    intro s _ _
    simp [processRuns, runsOf, specSummarize]
  | c :: rest =>
    intro s h1 h2
    by_cases hc : isRepSym c = true
    · obtain ⟨k, r, hkr⟩ : ∃ k rr, takeRun c rest = (k, rr) := ⟨_, _, rfl⟩
      have hdec : rest = List.replicate k c ++ r := by
        simpa [hkr] using takeRun_decomp c rest
      have hrhead : ∀ d, r.head? = some d → d ≠ c := by
        intro d hd
        exact takeRun_head c rest d (by simpa [hkr] using hd)
      have hrlen : r.length ≤ rest.length := by
        simpa [hkr] using takeRun_length c rest
      have hruns : runsOf (c :: rest) = (c, k + 1) :: runsOf r := by
        simp [runsOf, hc, hkr]
      have hsum : specSummarize (c :: rest) =
          (if k + 1 > 1 then runReplacement c (k + 1) else [c]) ++ specSummarize r := by
        simp [specSummarize, hc, hkr]
      have hfull : (c :: rest : List Char) = List.replicate (k + 1) c ++ r := by
        rw [List.replicate_succ, List.cons_append, ← hdec]
      have hslast : s.getLast? ≠ some c := h2 c rfl hc
      rw [hruns, hsum, hfull]
      rcases Nat.eq_zero_or_pos k with hk0 | hkpos
      · subst hk0
        have hskip : ∀ x : List Char, processRuns x ((c, 0 + 1) :: runsOf r) =
            processRuns x (runsOf r) := by
          intro x
          simp [processRuns]
        rw [hskip]
        rw [if_neg (by omega : ¬ 0 + 1 > 1)]
        have hrep1 : List.replicate (0 + 1) c = [c] := by simp
        rw [hrep1, ← List.append_assoc]
        rw [processRuns_spec r (s ++ [c]) ?k1 ?k2]
        · rw [List.append_assoc]
        case k1 =>
          apply noTwo_append s [c] h1 trivial
          intro a hl hh hsym
          simp only [List.head?_cons, Option.some.injEq] at hh
          rw [← hh] at hl
          exact hslast hl
        case k2 =>
          intro c2 hh2 hsym2
          rw [List.getLast?_concat]
          intro he
          rw [Option.some.injEq] at he
          exact hrhead c2 hh2 he.symm
      · have h21 : k + 1 > 1 := by omega
        rw [if_pos h21]
        have hstep : processRuns (s ++ (List.replicate (k + 1) c ++ r))
            ((c, k + 1) :: runsOf r) =
            processRuns (replaceFirst (List.replicate (k + 1) c)
              (runReplacement c (k + 1)) (s ++ (List.replicate (k + 1) c ++ r)))
              (runsOf r) := by
          simp [processRuns, h21]
        rw [hstep, ← List.append_assoc]
        rw [replaceFirst_run c (k + 1) hc (by omega) s r _ h1 hslast]
        rw [processRuns_spec r (s ++ runReplacement c (k + 1)) ?m1 ?m2]
        · rw [List.append_assoc]
        case m1 =>
          apply noTwo_append s _ h1 (noTwo_runReplacement c (k + 1))
          intro a hl hh hsym
          rw [runReplacement_head_nonsym c (k + 1) a hh] at hsym
          exact Bool.false_ne_true hsym
        case m2 =>
          intro c2 hh2 hsym2
          rw [List.getLast?_append_of_ne_nil s (runReplacement_ne_nil c (k + 1)),
            runReplacement_getLast]
          intro he
          rw [Option.some.injEq] at he
          exact hrhead c2 hh2 he.symm
    · have hc' : isRepSym c = false := by simpa using hc
      have hruns : runsOf (c :: rest) = runsOf rest := by simp [runsOf, hc']
      have hsum : specSummarize (c :: rest) = c :: specSummarize rest := by
        simp [specSummarize, hc']
      rw [hruns, hsum]
      have hs : s ++ c :: rest = (s ++ [c]) ++ rest := by simp
      rw [hs]
      rw [processRuns_spec rest (s ++ [c]) ?p1 ?p2]
      · simp
      case p1 =>
        apply noTwo_append s [c] h1 trivial
        intro a hl hh hsym
        simp only [List.head?_cons, Option.some.injEq] at hh
        rw [← hh] at hsym
        rw [hc'] at hsym
        exact Bool.false_ne_true hsym
      case p2 =>
        intro c2 hh2 hsym2
        rw [List.getLast?_concat]
        intro he
        rw [Option.some.injEq] at he
        rw [← he] at hsym2
        rw [hc'] at hsym2
        exact Bool.false_ne_true hsym2
termination_by t.length
decreasing_by
  all_goals simp only [List.length_cons]
  all_goals omega

/-! ## Claim theorems -/

/-- C1: after the main loop feeds a child-output chunk with both silence
flags clear and a non-empty speech buffer, a flush is scheduled at
now+5ms rather than flushed inline — but nothing ever sets
`delaying_output`, so the guard against duplicate deferred flushes is
vacuous: feeding a second chunk 2 ms later schedules a second flush
while the first is still pending.  The first conjunct evaluates the
failing trace; the second proves the gating code never changes
`delaying_output`. -/
theorem C1_duplicate_deferred_flush :
    (after_feed (2 / 1000) (run_scheduled 0 (after_feed 0
        { silence := false, tempsilence := false, delaying_output := false,
          speech_buffer := "h", delayed_functions := [] }))).delayed_functions =
      [(5 / 1000, DelayedFn.read_buffer_scheduled),
       (2 / 1000 + 5 / 1000, DelayedFn.read_buffer_scheduled)] ∧
    ∀ (now : ℚ) (st : LoopSt), (after_feed now st).delaying_output = st.delaying_output := by
  constructor
  · have hb : ("h" : String) ≠ "" := by decide
    have hlt : ¬ ((0 : ℚ) ≥ 0 + 5 / 1000) := by norm_num
    simp only [after_feed, schedule, run_scheduled, runDelayedFn]
    norm_num [hb, hlt, List.filter]
  · intro now st
    simp only [after_feed, schedule]
    split
    · split <;> rfl
    · rfl

/-- C2 counterexample: `time_until_next_delayed` uses
`delayed_functions[0]`, the head of the list, not the earliest deadline
among all pending calls: with pending deadlines `[10, 5]` at time 0 it
returns 10, not `max(0, 5 - 0)`. -/
theorem C2_counterexample :
    time_until_next_delayed 0
        { silence := false, tempsilence := false, delaying_output := false,
          speech_buffer := "", delayed_functions :=
            [(10, DelayedFn.say_review), (5, DelayedFn.say_review)] } ≠
      some (max 0 (earliestDeadline 10 [(10, DelayedFn.say_review), (5, DelayedFn.say_review)] - 0)) := by
  have h1 : earliestDeadline 10 [(10, DelayedFn.say_review), (5, DelayedFn.say_review)] = 5 := by
    simp only [earliestDeadline, List.foldl, min_self]
    exact min_eq_right (by norm_num)
  rw [h1]
  have h2 : time_until_next_delayed 0
      { silence := false, tempsilence := false, delaying_output := false,
        speech_buffer := "", delayed_functions :=
          [(10, DelayedFn.say_review), (5, DelayedFn.say_review)] } =
      some (max 0 (10 - 0)) := rfl
  rw [h2]
  rw [show ((10 : ℚ) - 0) = 10 by ring, show ((5 : ℚ) - 0) = 5 by ring,
    max_eq_right (by norm_num : (0 : ℚ) ≤ 10), max_eq_right (by norm_num : (0 : ℚ) ≤ 5)]
  norm_num

/-- C2 amended: when pending calls exist, `time_until_next_delayed`
returns `max(0, d − now)` where `d` is the deadline of the first
(earliest-appended) entry of the list — which coincides with the
earliest deadline whenever the list is sorted by deadline — and `None`
when the list is empty. -/
theorem C2_head_deadline (now : ℚ) (st : LoopSt) :
    (st.delayed_functions = [] → time_until_next_delayed now st = none) ∧
    (∀ (t : ℚ) (f : DelayedFn) (rest : List (ℚ × DelayedFn)),
      st.delayed_functions = (t, f) :: rest →
      time_until_next_delayed now st = some (max 0 (t - now)) ∧
      (List.Pairwise (fun a b => a.1 ≤ b.1) st.delayed_functions →
        earliestDeadline t rest = t)) := by
  constructor
  · intro h
    simp [time_until_next_delayed, h]
  · intro t f rest h
    constructor
    · simp [time_until_next_delayed, h]
    · intro hsorted
      rw [h] at hsorted
      exact foldl_min_eq rest t (by
        intro p hp
        exact (List.pairwise_cons.mp hsorted).1 p hp)

theorem C2_head_deadline_witness :
    time_until_next_delayed 1
        { silence := false, tempsilence := false, delaying_output := false,
          speech_buffer := "", delayed_functions := [(3, DelayedFn.say_review)] } =
      some (max 0 (3 - 1)) ∧ earliestDeadline 3 [] = 3 := by
  have h := (C2_head_deadline 1
    { silence := false, tempsilence := false, delaying_output := false,
      speech_buffer := "", delayed_functions := [(3, DelayedFn.say_review)] }).2
    3 DelayedFn.say_review [] rfl
  exact ⟨h.1, h.2 (by simp)⟩

/-- C3 counterexample: on a 2×2 screen whose second row holds a wide
character (base cell followed by an empty right-half cell), `nextline`
from review position (1, 0) lands on the empty right-half cell at
(1, 1): line motions do not run the wide-character skip. -/
theorem C3_counterexample :
    cellAt [["a", "b"], ["王", ""]]
        ((nextline ⟨2, 2, [["a", "b"], ["王", ""]]⟩ ⟨1, 0⟩).revy)
        ((nextline ⟨2, 2, [["a", "b"], ["王", ""]]⟩ ⟨1, 0⟩).revx) = "" := by
  decide

/-- C3 amended: `prevchar` always runs `skip_to_previous_char`, so after
it the cell under the review cursor is never the empty right half of a
wide character (and the row is unchanged); the line and boundary
motions do not adjust `revx` and can land on an empty cell, as the
counterexample shows. -/
theorem C3_prevchar_lands_on_base (scr : Screen) (st : Rev) :
    cellAt scr.buffer ((prevchar scr st).revy) ((prevchar scr st).revx) ≠ "" ∧
    (prevchar scr st).revy = st.revy := by
  refine ⟨?_, rfl⟩
  exact skip_to_previous_char_nonempty scr.buffer st.revy _

/-- C4: `sayword` — both the plain say-word and the double-press spell
variant — speaks without moving: the review position after the call is
the position before it, for every screen and every starting position. -/
theorem C4_sayword_preserves_position (scr : Screen) (st : Rev) (spell : Bool) :
    (sayword scr st spell).1 = st := by
  by_cases h : (saywordLoop1 scr st).revx = 0 ∧ get_char scr (saywordLoop1 scr st) = " "
  · have hy := saywordLoop1_revy scr st
    have hsp : cellAt scr.buffer st.revy 0 = " " := by
      have h2 := h.2
      rw [get_char, h.1, hy] at h2
      exact h2
    have hfix := saywordLoop1_fix scr st h.1 hsp
    simp only [sayword, if_pos h]
    exact hfix
  · simp only [sayword, if_neg h]

/-- When every write fails with a broken pipe and the driver remembers a
rate setting, the `send`/`start` recursion never bottoms out: the
fuel-bounded evaluation returns `none` for every fuel (each respawn
re-sends the rate, whose failing write triggers another respawn) — the
model's rendition of the unbounded recursion in the source. -/
theorem synth_diverges (v : Int) : ∀ (fuel : Nat) (w : Nat → Bool) (st : SynthSt),
    (∀ n, w n = false) → st.rate = some v →
    (∀ text, Synth.send w st text fuel = none) ∧ Synth.start w st fuel = none := by
  intro fuel
  induction fuel using Nat.strong_induction_on with
  | _ fuel ih =>
    intro w st hw hr
    match fuel with
    | 0 => exact ⟨fun text => rfl, rfl⟩
    | f + 1 =>
      have hstart : Synth.start w st (f + 1) = none := by
        have h1 := (ih f (by omega) w { st with pipeGen := st.pipeGen + 1 } hw
          (by simpa using hr)).1 ("r" ++ toString v ++ "\n")
        simp only [hr] at h1
        simp [Synth.start, hr, h1]
      refine ⟨fun text => ?_, hstart⟩
      have h2 := (ih f (by omega) w { st with writeIdx := st.writeIdx + 1 } hw
        (by simpa using hr)).2
      simp [Synth.send, tryWrite, hw, h2]

/-- `Synth.send` under a first broken-pipe write, for a driver with no
remembered settings: the subprocess is respawned exactly once, the same
text is retried, and — whether or not the retry succeeds — no exception
escapes and the driver state stays well-formed. -/
theorem send_broken_pipe (w : Nat → Bool) (st : SynthSt) (text : String) (fuel : Nat)
    (hset : st.rate = none ∧ st.volume = none ∧ st.voice_idx = none)
    (hfail : w st.writeIdx = false) :
    Synth.send w st text (fuel + 2) =
      some (if w (st.writeIdx + 1) then
              { st with
                pipeGen := st.pipeGen + 1, writeIdx := st.writeIdx + 2,
                delivered := st.delivered ++ [text] }
            else { st with pipeGen := st.pipeGen + 1, writeIdx := st.writeIdx + 2 }) := by
  simp only [Synth.send, Synth.start, tryWrite, hfail, hset.1, hset.2.1, hset.2.2]
  by_cases hw2 : w (st.writeIdx + 1) <;> simp [hw2]

/-- C5: for a chunk bound in the keymap, `KeyHandler.process` invokes
the double binding exactly when the chunk equals `last_key`, the doubled
sequence is also bound, and at most `REPEAT_KEY_TIMEOUT` (500 ms)
elapsed since the previous key; when more time elapsed or no double
binding exists it invokes the single binding — in particular a second
identical press more than 500 ms after the first, or one without a
double binding, again invokes the single binding. -/
theorem C5_double_press (km : String → Bool) (now : ℚ) (st : KeyHandlerSt)
    (data : String) (hb : km data = true) :
    ((st.last_key = some data ∧ km (data ++ data) = true ∧
        now - st.last_key_time ≤ REPEAT_KEY_TIMEOUT) →
      (KeyHandler.process km now st data).2 = .double (data ++ data)) ∧
    ((REPEAT_KEY_TIMEOUT < now - st.last_key_time ∨ km (data ++ data) = false) →
      (KeyHandler.process km now st data).2 = .single data) ∧
    (∀ now2 : ℚ, REPEAT_KEY_TIMEOUT < now2 - now ∨ km (data ++ data) = false →
      (KeyHandler.process km now2 (KeyHandler.process km now st data).1 data).2 =
        .single data) := by
  have hproc : ∀ (n : ℚ) (s : KeyHandlerSt),
      (KeyHandler.process km n s data).2 =
        if s.last_key = some data ∧ km (data ++ data) = true ∧
            n - s.last_key_time ≤ REPEAT_KEY_TIMEOUT then
          .double (data ++ data)
        else .single data := by
    intro n s
    simp only [KeyHandler.process, hb]
    simp
    split <;> rfl
  refine ⟨?_, ?_, ?_⟩
  · intro h
    rw [hproc, if_pos h]
  · intro h
    rw [hproc, if_neg ?_]
    rintro ⟨-, hdub, hd⟩
    rcases h with h | h
    · exact absurd hd (by linarith)
    · rw [h] at hdub
      exact Bool.false_ne_true hdub
  · intro now2 h
    rw [KeyHandler.process_fst, hproc, if_neg ?_]
    rintro ⟨-, hdub, hd⟩
    rcases h with h | h
    · exact absurd hd (by simpa using not_le.mpr h)
    · rw [h] at hdub
      exact Bool.false_ne_true hdub

theorem C5_double_press_witness :
    (KeyHandler.process (fun s => s == "a" || s == "aa") (1 / 4)
        ⟨some "a", 0⟩ "a").2 = .double ("a" ++ "a") ∧
    (KeyHandler.process (fun s => s == "a" || s == "aa") 1
        ⟨some "a", 0⟩ "a").2 = .single "a" := by
  have h := C5_double_press (fun s => s == "a" || s == "aa") (1 / 4)
    ⟨some "a", 0⟩ "a" (by decide)
  have h2 := C5_double_press (fun s => s == "a" || s == "aa") 1
    ⟨some "a", 0⟩ "a" (by decide)
  refine ⟨h.1 ⟨rfl, by decide, by norm_num [REPEAT_KEY_TIMEOUT]⟩, ?_⟩
  exact h2.2.1 (Or.inl (by norm_num [REPEAT_KEY_TIMEOUT]))

/-- C6: a `set_mode(1049)` followed by `reset_mode(1049)` — with any
sequence of operations that rewrite only the live buffer and cursor in
between, and no second save — restores the primary buffer and cursor
exactly; and a `reset_mode(1049)` with no save in effect leaves buffer
and cursor unchanged. -/
theorem C6_alternate_screen (st : MyScreenSt)
    (fs : List (ScreenBuffer → Cursor → ScreenBuffer × Cursor)) :
    ((MyScreen.reset_mode [1049] (applyMid fs (MyScreen.set_mode [1049] st))).buffer = st.buffer ∧
     (MyScreen.reset_mode [1049] (applyMid fs (MyScreen.set_mode [1049] st))).cursor = st.cursor) ∧
    ((MyScreen.reset_mode [1049] { st with saved_cursor := none }).buffer = st.buffer ∧
     (MyScreen.reset_mode [1049] { st with saved_cursor := none }).cursor = st.cursor) := by
  constructor
  · have hset : (MyScreen.set_mode [1049] st).saved_cursor = some st.cursor ∧
        (MyScreen.set_mode [1049] st).saved_buffer = some st.buffer := by
      constructor <;> simp [MyScreen.set_mode, cursor_position, List.erase]
    have hmid := applyMid_saved fs (MyScreen.set_mode [1049] st)
    have hc : (applyMid fs (MyScreen.set_mode [1049] st)).saved_cursor = some st.cursor := by
      rw [hmid.1, hset.1]
    have hbuf : (applyMid fs (MyScreen.set_mode [1049] st)).saved_buffer = some st.buffer := by
      rw [hmid.2, hset.2]
    constructor <;> simp [MyScreen.reset_mode, List.erase, hc, hbuf]
  · constructor <;> simp [MyScreen.reset_mode, List.erase]

/-- C9: `draw2` clears `lastkey` unconditionally on every grapheme,
matched or not; consequently, when a burst of graphemes is drawn after
a keystroke, only the first can be suppressed as a key echo — every
later draw of the burst buffers its grapheme normally. -/
theorem C9_lastkey_cleared (superDraw : String → Int × Int → Int × Int)
    (st : DrawSt) (text g : String) (burst : List String)
    (hne : ∀ t ∈ burst, t ≠ "") :
    (draw2 superDraw st text).lastkey = "" ∧
    (drawBurst superDraw st (g :: burst)).2 =
      draw2Suppressed st g :: List.replicate burst.length false := by
  refine ⟨draw2_lastkey superDraw st text, ?_⟩
  have hrest := drawBurst_no_suppression superDraw burst (draw2 superDraw st g)
    (draw2_lastkey superDraw st g) hne
  simp [drawBurst, hrest]

theorem C9_lastkey_cleared_witness :
    (draw2 (fun _ xy => xy)
        ⟨"a", "", [], false, false, true, 0, 0, 0, 0⟩ "a").lastkey = "" ∧
    (drawBurst (fun _ xy => xy)
        ⟨"a", "", [], false, false, true, 0, 0, 0, 0⟩ ["a", "b", "c"]).2 =
      draw2Suppressed ⟨"a", "", [], false, false, true, 0, 0, 0, 0⟩ "a" ::
        List.replicate 2 false := by
  exact C9_lastkey_cleared (fun _ xy => xy)
    ⟨"a", "", [], false, false, true, 0, 0, 0, 0⟩ "a" "a" ["b", "c"]
    (by intro t ht; fin_cases ht <;> decide)

/-- C10: an `sb()` call made while `tempsilence` is set and the speech
buffer is non-empty sends nothing to the synth and nonetheless clears
the buffer: the buffered text is discarded, not deferred. -/
theorem C10_tempsilence_discards (repeated_symbols : Bool) (st : DrawSt)
    (hts : st.tempsilence = true) (hne : st.speech_buffer ≠ "") :
    (sb repeated_symbols st).2 = none ∧
    (sb repeated_symbols st).1.speech_buffer = "" := by
  simp only [sb]
  rw [if_neg hne]
  rw [if_neg (by simp [hts])]
  exact ⟨rfl, rfl⟩

/-- C7: with the default configured set, the repeated-symbol pass
replaces each maximal run of length L of a set character by "L <char>"
exactly when `repeated_symbols` is on and L exceeds one, and every
character outside such runs appears unchanged in the output: the code's
find-then-replace-first loop coincides with the direct summarization
`specSummarize` written from the spec, and is the identity when the
flag is off. -/
theorem C7_repeated_symbols (repeated_symbols : Bool) (line : List Char) :
    replace_duplicate_characters_with_count repeated_symbols line =
      if repeated_symbols then specSummarize line else line := by
  unfold replace_duplicate_characters_with_count
  cases repeated_symbols with
  | false => rfl
  | true =>
    simp only [if_true]
    have h := processRuns_spec line [] trivial (by intro c _ _; simp)
    simpa using h

/-- C8 counterexample: when the driver remembers a rate setting —
the normal state after startup applies the config — a broken-pipe
respawn is not unique: here the first write of "x" and the first
replayed settings write both hit broken pipes, so `start()` runs twice
(`pipeGen` goes from 0 to 2, not to 1) before the original text is
retried, refuting "respawns the synth subprocess once and retries the
same write" as stated. -/
theorem C8_counterexample :
    (Synth.send (fun n => decide (2 ≤ n)) ⟨0, 0, [], some 50, none, none⟩ "x" 9).map
        SynthSt.pipeGen = some 2 ∧
    ¬ (Synth.send (fun n => decide (2 ≤ n)) ⟨0, 0, [], some 50, none, none⟩ "x" 9).map
        SynthSt.pipeGen = some 1 := by
  constructor <;> decide

/-- C8 amended: for a driver with no remembered rate/volume/voice
settings (so a respawn performs no nested writes), a text whose first
write hits a broken pipe causes exactly one respawn and a retry of the
same write; if the retry also hits a broken pipe the message is dropped
silently (the call still returns normally) and the driver can respawn
again on the next send.  With a remembered setting, `start()` re-sends
it through `send`, so under persistently failing writes the
`send`/`start` recursion never returns, at any depth bound. -/
theorem C8_broken_pipe_retry (w : Nat → Bool) (st : SynthSt) (text : String) (fuel : Nat)
    (hset : st.rate = none ∧ st.volume = none ∧ st.voice_idx = none)
    (hfail : w st.writeIdx = false) :
    Synth.send w st text (fuel + 2) =
      some (if w (st.writeIdx + 1) then
              { st with
                pipeGen := st.pipeGen + 1, writeIdx := st.writeIdx + 2,
                delivered := st.delivered ++ [text] }
            else { st with pipeGen := st.pipeGen + 1, writeIdx := st.writeIdx + 2 }) ∧
    (∀ (w2 : Nat → Bool) (text2 : String) (fuel2 : Nat),
      w2 (st.writeIdx + 2) = false →
      Synth.send w2 { st with pipeGen := st.pipeGen + 1, writeIdx := st.writeIdx + 2 }
          text2 (fuel2 + 2) =
        some (if w2 (st.writeIdx + 3) then
                { st with
                  pipeGen := st.pipeGen + 2, writeIdx := st.writeIdx + 4,
                  delivered := st.delivered ++ [text2] }
              else { st with pipeGen := st.pipeGen + 2, writeIdx := st.writeIdx + 4 })) ∧
    ∀ (w2 : Nat → Bool) (st2 : SynthSt) (text2 : String) (v : Int) (fuel2 : Nat),
      (∀ n, w2 n = false) → st2.rate = some v →
      Synth.send w2 st2 text2 fuel2 = none := by
  refine ⟨send_broken_pipe w st text fuel hset hfail, ?_, ?_⟩
  · intro w2 text2 fuel2 h2
    exact send_broken_pipe w2
      { st with pipeGen := st.pipeGen + 1, writeIdx := st.writeIdx + 2 } text2 fuel2
      ⟨hset.1, hset.2.1, hset.2.2⟩ h2
  · intro w2 st2 text2 v fuel2 hw2 hr2
    exact (synth_diverges v fuel2 w2 st2 hw2 hr2).1 text2

theorem C8_broken_pipe_retry_witness :
    (Synth.send (fun _ => false) ⟨0, 0, [], none, none, none⟩ "x" (0 + 2) =
      some (if (fun _ => false : Nat → Bool) (0 + 1) then
              (⟨0 + 1, 0 + 2, [] ++ ["x"], none, none, none⟩ : SynthSt)
            else (⟨0 + 1, 0 + 2, [], none, none, none⟩ : SynthSt))) ∧
    Synth.send (fun _ => false) ⟨0, 0, [], some 50, none, none⟩ "y" 5 = none := by
  refine ⟨(C8_broken_pipe_retry (fun _ => false) ⟨0, 0, [], none, none, none⟩ "x" 0
    ⟨rfl, rfl, rfl⟩ rfl).1, ?_⟩
  exact (C8_broken_pipe_retry (fun _ => false) ⟨0, 0, [], none, none, none⟩ "x" 0
    ⟨rfl, rfl, rfl⟩ rfl).2.2 (fun _ => false) ⟨0, 0, [], some 50, none, none⟩ "y" 50 5
    (fun n => rfl) rfl

theorem C10_tempsilence_discards_witness :
    (sb true ⟨"", "hello", [], false, true, true, 0, 0, 0, 0⟩).2 = none ∧
    (sb true ⟨"", "hello", [], false, true, true, 0, 0, 0, 0⟩).1.speech_buffer = "" := by
  exact C10_tempsilence_discards true
    ⟨"", "hello", [], false, true, true, 0, 0, 0, 0⟩ rfl (by decide)

end Tdsr
